import Mathlib

/-!
Verification of `gitbutler-app/src/lock.rs`: a directory-scoped mutual
exclusion primitive combining an intra-process `Mutex` with an OS advisory
lock file (`fslock::LockFile`).

The development shallowly embeds the module:
* a component-level model of Rust `std::path::Path` operations
  (`file_name`, `file_stem`, `extension`, `with_extension`, `parent`);
* a filesystem oracle (`Fs`) with symlink-following directory resolution
  mirroring `Path::is_dir`;
* `Inner::new` as a function of the filesystem and an oracle for the
  outcome of `fslock::LockFile::open`;
* `Inner::batch` as a function of oracles for the outcomes of the OS
  `lock`/`unlock` calls, recording an event trace and modelling the
  `Mutex` poisoning panic of `self.flock.lock().unwrap()`;
* a two-thread interleaving semantics for concurrent `batch` calls, used
  to prove mutual exclusion of the action bodies.
-/

namespace DirLock

/-! ## Path model (Rust `std::path` component semantics) -/

/-- One component of a normalized path, as produced by Rust
`Path::components()`. -/
inductive Component where
  | rootDir
  | curDir
  | parentDir
  | normal (s : String)
deriving DecidableEq, Repr

/-- A path is its normalized component list. -/
abbrev Path := List Component

/-- Position of the last `.` in a file name that separates an extension:
the last dot at an index `> 0` (a leading dot marks a hidden file and does
not start an extension), mirroring Rust `Path::extension`. -/
def lastDotPos (cs : List Char) : Option Nat :=
  match cs.reverse.findIdx? (fun c => c == '.') with
  | none => none
  | some j =>
    let i := cs.length - 1 - j
    if i = 0 then none else some i

/-- Split a file name into `(file_stem, extension)` following Rust
`Path::file_stem` / `Path::extension`. -/
def fileStemExt (name : String) : String × Option String :=
  match lastDotPos name.data with
  | none => (name, none)
  | some i => (⟨name.data.take i⟩, some ⟨name.data.drop (i + 1)⟩)

/-- Rust `Path::file_name`: the final component when it is a normal
component, `none` when the path is empty or ends in the root or `..`. -/
def fileName (p : Path) : Option String :=
  match p.getLast? with
  | some (Component.normal s) => some s
  | _ => none

/-- Rust `Path::file_stem`. -/
def fileStem (p : Path) : Option String :=
  (fileName p).map (fun n => (fileStemExt n).1)

/-- The file name produced by `PathBuf::set_extension`: the stem with
its extension replaced by `e` (just the stem for an empty `e`). -/
def setExtName (name e : String) : String :=
  if e.isEmpty then (fileStemExt name).1 else (fileStemExt name).1 ++ ("." ++ e)

/-- Rust `Path::with_extension` / `PathBuf::set_extension`: when the path
has a file name, replace that component by the stem with the new
extension; when it has no file name the path is returned unchanged
(`set_extension` returns `false` and does nothing). -/
def withExtension (p : Path) (e : String) : Path :=
  match p.getLast? with
  | some (Component.normal name) => p.dropLast ++ [Component.normal (setExtName name e)]
  | _ => p

/-- Rust `Path::parent`: drop the final component; `none` for the empty
path and for a path that is only the root. -/
def parent (p : Path) : Option Path :=
  match p.getLast? with
  | none => none
  | some Component.rootDir => none
  | some _ => some p.dropLast

/-- Rust `Path::is_absolute` on Unix: the path starts at the root. -/
def isAbsolute (p : Path) : Bool :=
  p.head? = some Component.rootDir

/-! ## Filesystem model -/

/-- What a path names in the filesystem. -/
inductive FsNode where
  | file
  | dir
  | symlink (target : Path)
deriving DecidableEq, Repr

/-- A filesystem snapshot: the node stored at each path, if any. -/
structure Fs where
  node : Path → Option FsNode

/-- Rust `Path::is_dir` (via `fs::metadata`, which follows symlinks):
resolve symlinks up to `fuel` steps and test for a directory. -/
def resolveIsDir (fs : Fs) : Nat → Path → Bool
  | 0, _ => false
  | fuel + 1, p =>
    match fs.node p with
    | some FsNode.dir => true
    | some (FsNode.symlink t) => resolveIsDir fs fuel t
    | _ => false

/-! ## Error types and state (from `lock.rs`) -/

/-- An opaque OS I/O error (`std::io::Error`), identified by a code. -/
abbrev IoError := Nat

/-- `OpenError` from `lock.rs`. -/
inductive OpenError where
  | notDirectory (p : Path)
  | io (e : IoError)
deriving DecidableEq, Repr

/-- `BatchError<E>` from `lock.rs`. -/
inductive BatchError (E : Type) where
  | io (e : IoError)
  | batch (e : E)
deriving DecidableEq, Repr

/-- The `Inner` state: the stored directory path (exactly as supplied to
`new`, via `as_ref().to_path_buf()`), plus the poisoned flag of the
`Mutex` wrapping the `fslock::LockFile`. -/
structure InnerState where
  path : Path
  poisoned : Bool
deriving DecidableEq, Repr

deriving instance DecidableEq for Except

/-- Outcome of `Inner::new`: the `Result` together with the path handed
to `fslock::LockFile::open`, when that call was reached at all. -/
structure NewResult where
  result : Except OpenError InnerState
  lockOpenAttempt : Option Path
deriving DecidableEq, Repr

/-- `Inner::new`: convert the argument to an owned path, fail with
`NotDirectory` unless it resolves to a directory, then open the lock file
at `path.with_extension("lock")` (outcome supplied by the oracle
`openRes`; `none` means success). -/
def Inner.new (fs : Fs) (fuel : Nat) (openRes : Option IoError) (p : Path) : NewResult :=
  if resolveIsDir fs fuel p then
    match openRes with
    | some e => ⟨Except.error (OpenError.io e), some (withExtension p "lock")⟩
    | none => ⟨Except.ok ⟨p, false⟩, some (withExtension p "lock")⟩
  else
    ⟨Except.error (OpenError.notDirectory p), none⟩

/-! ## `Inner::batch` (single call, sequential semantics) -/

/-- Environment oracle for one `batch` call: outcomes of the OS-level
`flock.lock()` and `flock.unlock()` calls (`none` = success). -/
structure LockEnv where
  lockResult : Option IoError
  unlockResult : Option IoError
deriving DecidableEq, Repr

/-- Events emitted by one `batch` call, in order. -/
inductive BatchEv where
  | mutexAcq
  | flockLockOk
  | flockLockErr
  | actionRun
  | flockUnlockOk
  | flockUnlockErr
  | mutexRel
deriving DecidableEq, Repr

/-- What `batch` does at the call boundary: return a `Result`, or panic
(the `self.flock.lock().unwrap()` on a poisoned mutex). -/
inductive BatchOutcome (R E : Type) where
  | panicked
  | returned (r : Except (BatchError E) R)
deriving DecidableEq, Repr

/-- `action(...).map_err(BatchError::Batch)` from `Inner::batch`. -/
def wrapAction {R E : Type} (r : Except E R) : Except (BatchError E) R :=
  match r with
  | Except.ok v => Except.ok v
  | Except.error e => Except.error (BatchError.batch e)

/-- Result of one `batch` call: outcome, the ordered event trace, and
whether the OS advisory lock is still held after the call returns. -/
structure BatchRun (R E : Type) where
  outcome : BatchOutcome R E
  events : List BatchEv
  flockHeldAfter : Bool
deriving DecidableEq, Repr

/-- `Inner::batch`: acquire the mutex (`.lock().unwrap()` — panics when
poisoned), then `flock.lock()?`, then run `action` on the stored path and
wrap its error, then `flock.unlock()?` (its failure replaces the action's
result), releasing the mutex guard on every return path. -/
def Inner.batch {R E : Type} (st : InnerState) (env : LockEnv)
    (action : Path → Except E R) : BatchRun R E :=
  if st.poisoned then
    ⟨BatchOutcome.panicked, [], false⟩
  else
    match env.lockResult with
    | some e =>
      ⟨BatchOutcome.returned (Except.error (BatchError.io e)),
        [BatchEv.mutexAcq, BatchEv.flockLockErr, BatchEv.mutexRel], false⟩
    | none =>
      let result := wrapAction (action st.path)
      match env.unlockResult with
      | some e =>
        ⟨BatchOutcome.returned (Except.error (BatchError.io e)),
          [BatchEv.mutexAcq, BatchEv.flockLockOk, BatchEv.actionRun,
           BatchEv.flockUnlockErr, BatchEv.mutexRel], true⟩
      | none =>
        ⟨BatchOutcome.returned result,
          [BatchEv.mutexAcq, BatchEv.flockLockOk, BatchEv.actionRun,
           BatchEv.flockUnlockOk, BatchEv.mutexRel], false⟩

/-! ## Concrete fixtures -/

def pRel : Path := [Component.normal "rel"]
def pFooBar : Path := [Component.normal "foo", Component.normal "bar"]
def pRoot : Path := [Component.rootDir]
def pLink : Path := [Component.rootDir, Component.normal "link"]
def pTarget : Path := [Component.rootDir, Component.normal "target"]
def pFile : Path := [Component.normal "f"]

def relDirFs : Fs := ⟨fun q => if q = pRel then some FsNode.dir else none⟩
def rootFs : Fs := ⟨fun q => if q = pRoot then some FsNode.dir else none⟩
def fileFs : Fs := ⟨fun q => if q = pFile then some FsNode.file else none⟩
def symFs : Fs :=
  ⟨fun q =>
    if q = pLink then some (FsNode.symlink pTarget)
    else if q = pTarget then some FsNode.dir else none⟩

/-- Both OS lock calls succeed. -/
def envOk : LockEnv := ⟨none, none⟩

/-! ## Claims about `Inner::batch` (C2, C3, C4, C8, C9) -/

/-- C3: when the OS lock is acquired and released successfully, `batch`
returns `action`'s domain error wrapped as `BatchError::Batch(E)` and
otherwise unmodified, and symmetrically returns `Ok(R)` exactly when
`action` returned `R`. -/
theorem C3_wrapping_fidelity {R E : Type} (st : InnerState) (env : LockEnv)
    (act : Path → Except E R) (hp : st.poisoned = false)
    (hl : env.lockResult = none) (hu : env.unlockResult = none) :
    (∀ e, act st.path = Except.error e →
      (Inner.batch st env act).outcome
        = BatchOutcome.returned (Except.error (BatchError.batch e))) ∧
    (∀ r, act st.path = Except.ok r →
      (Inner.batch st env act).outcome = BatchOutcome.returned (Except.ok r)) := by
  constructor <;> intro x hx <;> simp [Inner.batch, hp, hl, hu, wrapAction, hx]

theorem C3_witness :
    (Inner.batch ⟨pFooBar, false⟩ envOk
        (fun _ => (Except.error 42 : Except Nat Nat))).outcome
      = BatchOutcome.returned (Except.error (BatchError.batch 42)) ∧
    (Inner.batch ⟨pFooBar, false⟩ envOk
        (fun _ => (Except.ok 5 : Except Nat Nat))).outcome
      = BatchOutcome.returned (Except.ok 5) :=
  ⟨(C3_wrapping_fidelity ⟨pFooBar, false⟩ envOk _ rfl rfl rfl).1 42 rfl,
   (C3_wrapping_fidelity ⟨pFooBar, false⟩ envOk _ rfl rfl rfl).2 5 rfl⟩

/-- C2 counterexample: `action` fails with domain error `42` and the OS
unlock then fails with I/O error `7`; `batch` returns the I/O error — the
action error does not propagate, contrary to the claim. -/
theorem C2_counterexample :
    (Inner.batch ⟨pFooBar, false⟩ ⟨none, some 7⟩
        (fun _ => (Except.error 42 : Except Nat Nat))).outcome
      = BatchOutcome.returned (Except.error (BatchError.io 7)) ∧
    BatchOutcome.returned (Except.error (BatchError.io 7))
      ≠ (BatchOutcome.returned (Except.error (BatchError.batch 42))
          : BatchOutcome Nat Nat) := by
  decide

/-- C2 (amended): if releasing the OS advisory lock fails after `action`
has run, `batch` returns that failure as an I/O error, taking precedence
over `action`'s result whether it was a success or a domain error — a
prior action error is dropped. -/
theorem C2_release_failure_precedence {R E : Type} (st : InnerState)
    (env : LockEnv) (act : Path → Except E R) (e : IoError)
    (hp : st.poisoned = false) (hl : env.lockResult = none)
    (hu : env.unlockResult = some e) :
    (Inner.batch st env act).outcome
      = BatchOutcome.returned (Except.error (BatchError.io e)) := by
  simp [Inner.batch, hp, hl, hu]

theorem C2_witness :
    (Inner.batch ⟨pFooBar, false⟩ ⟨none, some 7⟩
        (fun _ => (Except.error 42 : Except Nat Nat))).outcome
      = BatchOutcome.returned (Except.error (BatchError.io 7)) :=
  C2_release_failure_precedence ⟨pFooBar, false⟩ ⟨none, some 7⟩ _ 7 rfl rfl rfl

/-- C4: if acquiring the OS advisory lock fails with an I/O error,
`batch` returns `BatchError::Io`, `action` is never invoked, the OS lock
is not held afterwards, and the intra-process mutex is still released
before `batch` returns (the `mutexRel` event closes the trace). -/
theorem C4_acquire_failure {R E : Type} (st : InnerState) (env : LockEnv)
    (act : Path → Except E R) (e : IoError)
    (hp : st.poisoned = false) (hl : env.lockResult = some e) :
    (Inner.batch st env act).outcome
      = BatchOutcome.returned (Except.error (BatchError.io e)) ∧
    BatchEv.actionRun ∉ (Inner.batch st env act).events ∧
    (Inner.batch st env act).events.getLast? = some BatchEv.mutexRel ∧
    (Inner.batch st env act).flockHeldAfter = false := by
  simp [Inner.batch, hp, hl]

theorem C4_witness :
    (Inner.batch ⟨pFooBar, false⟩ ⟨some 3, none⟩
        (fun _ => (Except.ok 5 : Except Nat Nat))).outcome
      = BatchOutcome.returned (Except.error (BatchError.io 3)) ∧
    BatchEv.actionRun ∉ (Inner.batch ⟨pFooBar, false⟩ ⟨some 3, none⟩
        (fun _ => (Except.ok 5 : Except Nat Nat))).events ∧
    (Inner.batch ⟨pFooBar, false⟩ ⟨some 3, none⟩
        (fun _ => (Except.ok 5 : Except Nat Nat))).events.getLast?
      = some BatchEv.mutexRel ∧
    (Inner.batch ⟨pFooBar, false⟩ ⟨some 3, none⟩
        (fun _ => (Except.ok 5 : Except Nat Nat))).flockHeldAfter = false :=
  C4_acquire_failure ⟨pFooBar, false⟩ ⟨some 3, none⟩ _ 3 rfl rfl

/-- `flock.lock()` call events (successful or failed acquisition attempt). -/
def isLockAttempt : BatchEv → Bool
  | BatchEv.flockLockOk => true
  | BatchEv.flockLockErr => true
  | _ => false

/-- C8: with an unpoisoned mutex, `batch` always returns a typed
`Result` (never panics), attempts the OS lock acquisition at most once
(no silent retry), and `new` always returns one of the typed results
`Ok`, `NotDirectory`, or `Io`. -/
theorem C8_no_panic_no_retry {R E : Type} (st : InnerState) (env : LockEnv)
    (act : Path → Except E R) (hp : st.poisoned = false) :
    (∃ r, (Inner.batch st env act).outcome = BatchOutcome.returned r) ∧
    ((Inner.batch st env act).events.filter isLockAttempt).length ≤ 1 ∧
    (∀ fs fuel openRes p,
      (Inner.new fs fuel openRes p).result = Except.ok ⟨p, false⟩ ∨
      (Inner.new fs fuel openRes p).result
        = Except.error (OpenError.notDirectory p) ∨
      ∃ e, (Inner.new fs fuel openRes p).result = Except.error (OpenError.io e)) := by
  obtain ⟨lr, ur⟩ := env
  refine ⟨?_, ?_, ?_⟩
  · cases lr <;> cases ur <;>
      exact ⟨_, by simp [Inner.batch, hp]; exact rfl⟩
  · cases lr <;> cases ur <;> simp [Inner.batch, hp, isLockAttempt]
  · intro fs fuel openRes p
    by_cases hd : resolveIsDir fs fuel p = true
    · cases openRes with
      | none => left; simp [Inner.new, hd]
      | some e => right; right; exact ⟨e, by simp [Inner.new, hd]⟩
    · right; left; simp [Inner.new, hd]

theorem C8_witness :
    (∃ r, (Inner.batch ⟨pFooBar, false⟩ envOk
        (fun _ => (Except.ok 5 : Except Nat Nat))).outcome
          = BatchOutcome.returned r) ∧
    ((Inner.batch ⟨pFooBar, false⟩ envOk
        (fun _ => (Except.ok 5 : Except Nat Nat))).events.filter
          isLockAttempt).length ≤ 1 ∧
    (∀ fs fuel openRes p,
      (Inner.new fs fuel openRes p).result = Except.ok ⟨p, false⟩ ∨
      (Inner.new fs fuel openRes p).result
        = Except.error (OpenError.notDirectory p) ∨
      ∃ e, (Inner.new fs fuel openRes p).result
        = Except.error (OpenError.io e)) :=
  C8_no_panic_no_retry ⟨pFooBar, false⟩ envOk _ rfl

/-- C9: on every execution path of `batch`, the intra-process mutex is
acquired strictly before any OS-lock event and released strictly after
all of them; once the OS lock is acquired its release is invoked whether
`action` succeeded or returned its own error; and whenever the release
succeeds (or acquisition already failed) the OS lock is not held after
the call, so a subsequent call can acquire it. -/
theorem C9_ordering_and_release {R E : Type} (st : InnerState) (env : LockEnv)
    (act : Path → Except E R) (hp : st.poisoned = false) :
    (∃ mid, (Inner.batch st env act).events
        = BatchEv.mutexAcq :: (mid ++ [BatchEv.mutexRel]) ∧
      BatchEv.mutexAcq ∉ mid ∧ BatchEv.mutexRel ∉ mid) ∧
    (env.lockResult = none →
      BatchEv.flockUnlockOk ∈ (Inner.batch st env act).events ∨
      BatchEv.flockUnlockErr ∈ (Inner.batch st env act).events) ∧
    (env.unlockResult = none ∨ env.lockResult ≠ none →
      (Inner.batch st env act).flockHeldAfter = false) := by
  obtain ⟨lr, ur⟩ := env
  refine ⟨?_, ?_, ?_⟩
  · cases lr with
    | some e => exact ⟨[BatchEv.flockLockErr], by simp [Inner.batch, hp], by decide, by decide⟩
    | none =>
      cases ur with
      | some e =>
        exact ⟨[BatchEv.flockLockOk, BatchEv.actionRun, BatchEv.flockUnlockErr],
          by simp [Inner.batch, hp], by decide, by decide⟩
      | none =>
        exact ⟨[BatchEv.flockLockOk, BatchEv.actionRun, BatchEv.flockUnlockOk],
          by simp [Inner.batch, hp], by decide, by decide⟩
  · intro hl
    cases lr with
    | some e => simp at hl
    | none => cases ur <;> simp [Inner.batch, hp]
  · intro hcase
    cases lr with
    | some e => simp [Inner.batch, hp]
    | none =>
      cases ur with
      | none => simp [Inner.batch, hp]
      | some e =>
        rcases hcase with h | h
        · simp at h
        · simp at h

theorem C9_witness :
    (∃ mid, (Inner.batch ⟨pFooBar, false⟩ envOk
        (fun _ => (Except.error 42 : Except Nat Nat))).events
          = BatchEv.mutexAcq :: (mid ++ [BatchEv.mutexRel]) ∧
      BatchEv.mutexAcq ∉ mid ∧ BatchEv.mutexRel ∉ mid) ∧
    (envOk.lockResult = none →
      BatchEv.flockUnlockOk ∈ (Inner.batch ⟨pFooBar, false⟩ envOk
        (fun _ => (Except.error 42 : Except Nat Nat))).events ∨
      BatchEv.flockUnlockErr ∈ (Inner.batch ⟨pFooBar, false⟩ envOk
        (fun _ => (Except.error 42 : Except Nat Nat))).events) ∧
    (envOk.unlockResult = none ∨ envOk.lockResult ≠ none →
      (Inner.batch ⟨pFooBar, false⟩ envOk
        (fun _ => (Except.error 42 : Except Nat Nat))).flockHeldAfter = false) :=
  C9_ordering_and_release ⟨pFooBar, false⟩ envOk _ rfl

/-! ## Claims about `Inner::new` (C5, C7, C10) -/

/-- C5: for every path that does not resolve to an existing directory,
construction fails with `NotDirectory` and the lock-file open is never
attempted. -/
theorem C5_not_directory (fs : Fs) (fuel : Nat) (openRes : Option IoError)
    (p : Path) (h : resolveIsDir fs fuel p = false) :
    Inner.new fs fuel openRes p
      = ⟨Except.error (OpenError.notDirectory p), none⟩ := by
  simp [Inner.new, h]

theorem C5_witness :
    resolveIsDir fileFs 1 pFile = false ∧
    Inner.new fileFs 1 none pFile
      = ⟨Except.error (OpenError.notDirectory pFile), none⟩ :=
  ⟨rfl, C5_not_directory fileFs 1 none pFile rfl⟩

/-- C7 counterexample: construction accepts the relative path `rel` and
stores it verbatim — the stored path is not absolute (hence not
canonical), and `batch` hands that relative path to `action`, contrary
to the claim that a canonical absolute path is stored and passed. -/
theorem C7_counterexample :
    (Inner.new relDirFs 1 none pRel).result = Except.ok ⟨pRel, false⟩ ∧
    isAbsolute pRel = false ∧
    (Inner.batch ⟨pRel, false⟩ envOk
        (fun q => (Except.ok q : Except Nat Path))).outcome
      = BatchOutcome.returned (Except.ok pRel) := by
  decide

/-- C7 (amended): the `State` stores the supplied path exactly as given
(no canonicalization), and every successful `batch` call passes that
stored, as-supplied path to `action`. -/
theorem C7_stores_supplied_path (fs : Fs) (fuel : Nat)
    (openRes : Option IoError) (p : Path) (st : InnerState)
    (h : (Inner.new fs fuel openRes p).result = Except.ok st) :
    st.path = p ∧ st.poisoned = false ∧
    ∀ {R E : Type} (env : LockEnv) (act : Path → Except E R),
      env.lockResult = none → env.unlockResult = none →
      (Inner.batch st env act).outcome
        = BatchOutcome.returned (wrapAction (act p)) := by
  have hst : st = ⟨p, false⟩ := by
    by_cases hd : resolveIsDir fs fuel p = true
    · cases openRes with
      | some e => simp [Inner.new, hd] at h
      | none =>
        simp [Inner.new, hd] at h
        exact h.symm
    · simp [Inner.new, hd] at h
  subst hst
  refine ⟨rfl, rfl, ?_⟩
  intro R E env act hl hu
  simp [Inner.batch, hl, hu]

theorem C7_witness :
    InnerState.path ⟨pRel, false⟩ = pRel ∧
    InnerState.poisoned ⟨pRel, false⟩ = false ∧
    ∀ {R E : Type} (env : LockEnv) (act : Path → Except E R),
      env.lockResult = none → env.unlockResult = none →
      (Inner.batch (⟨pRel, false⟩ : InnerState) env act).outcome
        = BatchOutcome.returned (wrapAction (act pRel)) :=
  C7_stores_supplied_path relDirFs 1 none pRel ⟨pRel, false⟩ rfl

/-- C10 counterexample: `link` resolves (through a symlink) to a
directory, so the directory test passes, yet construction fails when the
lock-file open fails with an I/O error — construction success requires
more than the directory test passing. -/
theorem C10_counterexample :
    resolveIsDir symFs 2 pLink = true ∧
    (Inner.new symFs 2 (some 5) pLink).result
      = Except.error (OpenError.io 5) := by
  decide

/-- C10 (amended): the directory check follows symlinks, so a symlink
resolving to a directory passes it; when the lock-file open then
succeeds, construction succeeds and stores the symlink path exactly as
supplied (not the resolved target), and `batch` hands that supplied path
to `action`. -/
theorem C10_symlink_follow (fs : Fs) (fuel : Nat) (p t : Path)
    (hnode : fs.node p = some (FsNode.symlink t))
    (hdir : resolveIsDir fs fuel t = true) :
    resolveIsDir fs (fuel + 1) p = true ∧
    (Inner.new fs (fuel + 1) none p).result = Except.ok ⟨p, false⟩ ∧
    ∀ {R E : Type} (env : LockEnv) (act : Path → Except E R),
      env.lockResult = none → env.unlockResult = none →
      (Inner.batch (⟨p, false⟩ : InnerState) env act).outcome
        = BatchOutcome.returned (wrapAction (act p)) := by
  have hres : resolveIsDir fs (fuel + 1) p = true := by
    simp [resolveIsDir, hnode, hdir]
  refine ⟨hres, by simp [Inner.new, hres], ?_⟩
  intro R E env act hl hu
  simp [Inner.batch, hl, hu]

theorem C10_witness :
    symFs.node pLink = some (FsNode.symlink pTarget) ∧
    resolveIsDir symFs 1 pTarget = true ∧
    pLink ≠ pTarget ∧
    (Inner.new symFs 2 none pLink).result = Except.ok ⟨pLink, false⟩ :=
  ⟨rfl, rfl, by decide,
   (C10_symlink_follow symFs 1 pLink pTarget rfl rfl).2.1⟩

/-! ## Claim C6: the lock-file path derivation -/

/-- The claim as stated: for every target directory path `D` accepted by
construction, the lock file opened is exactly `parent(D)/stem(D).lock`. -/
def lockPathClaim : Prop :=
  ∀ (fs : Fs) (fuel : Nat) (openRes : Option IoError) (p : Path) (st : InnerState),
    (Inner.new fs fuel openRes p).result = Except.ok st →
    ∃ par stem, parent p = some par ∧ fileStem p = some stem ∧
      (Inner.new fs fuel openRes p).lockOpenAttempt
        = some (par ++ [Component.normal (stem ++ ".lock")])

/-- C6 counterexample: the root directory passes the directory check and
(with the lock-file open oracle succeeding) is accepted by construction,
but it has no file name, so `with_extension` leaves it unchanged: the
lock path is the root itself, while `parent(D)` and `stem(D)` do not
even exist. -/
theorem C6_counterexample : ¬ lockPathClaim := by
  intro h
  obtain ⟨par, stem, hpar, _, _⟩ := h rootFs 1 none pRoot ⟨pRoot, false⟩ rfl
  exact Option.noConfusion hpar

/-- C6 (amended): for every path `D` that has a file name (its final
component is a normal component), the lock path is
`parent(D)/stem(D).lock` — the extension replaced by `.lock`, appended
when absent — a sibling of `D` and never a file inside `D`; a `D`
without a file name (the root, or a path ending in `..`) is left
unchanged by `with_extension`. -/
theorem C6_lock_path (p : Path) (name : String) (h : fileName p = some name) :
    withExtension p "lock"
      = p.dropLast ++ [Component.normal ((fileStemExt name).1 ++ ".lock")] ∧
    parent p = some p.dropLast ∧
    fileStem p = some (fileStemExt name).1 ∧
    ¬ ∃ rest, rest ≠ [] ∧ withExtension p "lock" = p ++ rest := by
  have hg : p.getLast? = some (Component.normal name) := by
    unfold fileName at h
    cases hgl : p.getLast? with
    | none => rw [hgl] at h; exact Option.noConfusion h
    | some c =>
      rw [hgl] at h
      cases c with
      | normal s =>
        simp only [Option.some.injEq] at h
        rw [h]
      | rootDir => exact Option.noConfusion h
      | curDir => exact Option.noConfusion h
      | parentDir => exact Option.noConfusion h
  have hwe : withExtension p "lock"
      = p.dropLast ++ [Component.normal ((fileStemExt name).1 ++ ".lock")] := by
    unfold withExtension
    rw [hg]
    rfl
  have hne : p ≠ [] := by
    intro h0
    rw [h0] at hg
    exact Option.noConfusion hg
  refine ⟨hwe, ?_, ?_, ?_⟩
  · unfold parent
    rw [hg]
  · unfold fileStem
    rw [h]
    rfl
  · rintro ⟨rest, hrne, heq⟩
    have hlen : (withExtension p "lock").length = p.length := by
      rw [hwe]
      have hpos : 0 < p.length := List.length_pos.mpr hne
      simp [List.length_dropLast]
      omega
    rw [heq] at hlen
    simp [List.length_append] at hlen
    exact hrne hlen

theorem C6_witness :
    fileName pFooBar = some "bar" ∧
    (withExtension pFooBar "lock"
        = pFooBar.dropLast
          ++ [Component.normal ((fileStemExt "bar").1 ++ ".lock")] ∧
      parent pFooBar = some pFooBar.dropLast ∧
      fileStem pFooBar = some (fileStemExt "bar").1 ∧
      ¬ ∃ rest, rest ≠ [] ∧ withExtension pFooBar "lock" = pFooBar ++ rest) :=
  ⟨rfl, C6_lock_path pFooBar "bar" rfl⟩

/-! ## Claim C1: two concurrent `batch` calls (interleaving semantics)

Two threads (named by `Bool`), each performing one `batch` call on the
same directory path. `mo t` names the `Mutex` instance thread `t` goes
through: clones of one Handle share it (`mo` constant), two
independently constructed Handles have distinct mutexes (`mo = id`);
the OS advisory lock is keyed by the shared lock-file path, so it is a
single variable in both topologies. The `log` records the ordered
side-effect steps of the action bodies. -/

/-- Program counter of one thread executing `batch`: before the mutex,
holding the mutex, running the action (having performed `k` side-effect
steps) while holding mutex and OS lock, after releasing the OS lock, and
returned. -/
inductive Phase where
  | start
  | haveMutex
  | running (k : Nat)
  | postFlock
  | done
deriving DecidableEq, Repr

/-- Global state of the two threads. -/
structure CState where
  phase : Bool → Phase
  mutexOwner : Bool → Option Bool
  flockOwner : Option Bool
  log : List (Bool × Nat)

/-- Both threads about to call `batch`; nothing held, nothing logged. -/
def initC : CState := ⟨fun _ => Phase.start, fun _ => none, none, []⟩

/-- One scheduler step; `nn t` is the number of side-effect steps in
thread `t`'s action body. Mirrors `Inner::batch`: take the mutex, then
`flock.lock()` (which may fail with I/O, releasing the mutex on the `?`
return), run the action, release the OS lock, release the mutex. -/
inductive CStep (nn : Bool → Nat) (mo : Bool → Bool) : CState → CState → Prop where
  | acqMutex (s : CState) (t : Bool) :
      s.phase t = Phase.start → s.mutexOwner (mo t) = none →
      CStep nn mo s
        ⟨Function.update s.phase t Phase.haveMutex,
         Function.update s.mutexOwner (mo t) (some t), s.flockOwner, s.log⟩
  | acqFlock (s : CState) (t : Bool) :
      s.phase t = Phase.haveMutex → s.flockOwner = none →
      CStep nn mo s
        ⟨Function.update s.phase t (Phase.running 0), s.mutexOwner, some t, s.log⟩
  | flockFail (s : CState) (t : Bool) :
      s.phase t = Phase.haveMutex →
      CStep nn mo s
        ⟨Function.update s.phase t Phase.done,
         Function.update s.mutexOwner (mo t) none, s.flockOwner, s.log⟩
  | emit (s : CState) (t : Bool) (k : Nat) :
      s.phase t = Phase.running k → k < nn t →
      CStep nn mo s
        ⟨Function.update s.phase t (Phase.running (k + 1)), s.mutexOwner,
         s.flockOwner, s.log ++ [(t, k)]⟩
  | relFlock (s : CState) (t : Bool) :
      s.phase t = Phase.running (nn t) →
      CStep nn mo s
        ⟨Function.update s.phase t Phase.postFlock, s.mutexOwner, none, s.log⟩
  | relMutex (s : CState) (t : Bool) :
      s.phase t = Phase.postFlock →
      CStep nn mo s
        ⟨Function.update s.phase t Phase.done,
         Function.update s.mutexOwner (mo t) none, s.flockOwner, s.log⟩

/-- States reachable from the initial state under any interleaving. -/
def ReachableC (nn : Bool → Nat) (mo : Bool → Bool) (s : CState) : Prop :=
  Relation.ReflTransGen (CStep nn mo) initC s

/-- Number of logged side-effect steps of thread `t`. -/
def evCount (t : Bool) (log : List (Bool × Nat)) : Nat :=
  (log.filter (fun e => e.1 == t)).length

/-- The contiguous block of the first `k` side-effect steps of `t`. -/
def tblock (t : Bool) (k : Nat) : List (Bool × Nat) :=
  (List.range k).map (fun i => (t, i))

theorem bool_ne_not (a : Bool) : a ≠ !a := by cases a <;> decide

theorem tblock_snoc (t : Bool) (k : Nat) :
    tblock t k ++ [(t, k)] = tblock t (k + 1) := by
  simp [tblock, List.range_succ]

theorem evCount_append (t : Bool) (l1 l2 : List (Bool × Nat)) :
    evCount t (l1 ++ l2) = evCount t l1 + evCount t l2 := by
  simp [evCount, List.filter_append]

theorem evCount_single_same (t : Bool) (k : Nat) : evCount t [(t, k)] = 1 := by
  simp [evCount]

theorem evCount_single_ne {u t : Bool} (h : u ≠ t) (k : Nat) :
    evCount u [(t, k)] = 0 := by
  simp [evCount, beq_iff_eq]
  exact fun hh => absurd hh.symm h

theorem evCount_tblock_same (t : Bool) (k : Nat) : evCount t (tblock t k) = k := by
  induction k with
  | zero => rfl
  | succ n ih => rw [← tblock_snoc, evCount_append, ih, evCount_single_same]

theorem evCount_tblock_ne {u t : Bool} (h : u ≠ t) (k : Nat) :
    evCount u (tblock t k) = 0 := by
  induction k with
  | zero => rfl
  | succ n ih => rw [← tblock_snoc, evCount_append, ih, evCount_single_ne h]

theorem tblock_getLast (t : Bool) (k : Nat) (h : 0 < k) :
    (tblock t k).getLast? = some (t, k - 1) := by
  cases k with
  | zero => omega
  | succ n => rw [← tblock_snoc, List.getLast?_concat]; rfl

theorem tblock_zero (t : Bool) : tblock t 0 = [] := rfl

theorem tblock_ne_nil (t : Bool) {k : Nat} (h : 0 < k) : tblock t k ≠ [] := by
  intro h0
  have := congrArg List.length h0
  simp [tblock] at this
  omega

theorem serial_counts {a : Bool} {ja jb : Nat} {log : List (Bool × Nat)}
    (h : log = tblock a ja ++ tblock (!a) jb) :
    evCount a log = ja ∧ evCount (!a) log = jb := by
  subst h
  constructor
  · rw [evCount_append, evCount_tblock_same, evCount_tblock_ne (bool_ne_not a)]
    omega
  · rw [evCount_append, evCount_tblock_same, evCount_tblock_ne (bool_ne_not a).symm]
    omega

/-- The inductive invariant: the log is two contiguous per-thread blocks
(no interleaving); a thread in its action body owns the OS lock and has
logged exactly its first `k` steps, which form a suffix of the log; a
thread before its action has logged nothing, a thread past its action
has logged all its steps (or nothing, when OS-lock acquisition failed). -/
structure CInv (nn : Bool → Nat) (s : CState) : Prop where
  serial : ∃ a ja jb, s.log = tblock a ja ++ tblock (!a) jb
  run_flock : ∀ t k, s.phase t = Phase.running k → s.flockOwner = some t
  run_count : ∀ t k, s.phase t = Phase.running k → evCount t s.log = k ∧ k ≤ nn t
  pre_count : ∀ t, s.phase t = Phase.start ∨ s.phase t = Phase.haveMutex →
    evCount t s.log = 0
  post_count : ∀ t, s.phase t = Phase.postFlock → evCount t s.log = nn t
  done_count : ∀ t, s.phase t = Phase.done →
    evCount t s.log = 0 ∨ evCount t s.log = nn t
  run_suffix : ∀ t k, s.phase t = Phase.running k → 0 < k →
    ∃ pre, s.log = pre ++ tblock t k ∧ evCount t pre = 0

theorem CInv_init (nn : Bool → Nat) : CInv nn initC := by
  refine ⟨⟨true, 0, 0, rfl⟩, ?_, ?_, ?_, ?_, ?_, ?_⟩
  · intro t k hu; exact Phase.noConfusion hu
  · intro t k hu; exact Phase.noConfusion hu
  · intro t _; rfl
  · intro t hu; exact Phase.noConfusion hu
  · intro t hu; exact Phase.noConfusion hu
  · intro t k hu _; exact Phase.noConfusion hu

theorem CInv_preserved {nn : Bool → Nat} {mo : Bool → Bool} {s s' : CState}
    (hs : CInv nn s) (hstep : CStep nn mo s s') : CInv nn s' := by
  obtain ⟨hse, hrf, hrc, hpc, hpo, hdc, hrs⟩ := hs
  cases hstep with
  | acqMutex t hph hmo =>
    refine ⟨hse, ?_, ?_, ?_, ?_, ?_, ?_⟩ <;> dsimp only
    · intro u k hu
      rcases eq_or_ne u t with rfl | hut
      · rw [Function.update_same] at hu; exact Phase.noConfusion hu
      · rw [Function.update_noteq hut] at hu; exact hrf u k hu
    · intro u k hu
      rcases eq_or_ne u t with rfl | hut
      · rw [Function.update_same] at hu; exact Phase.noConfusion hu
      · rw [Function.update_noteq hut] at hu; exact hrc u k hu
    · intro u hu
      rcases eq_or_ne u t with rfl | hut
      · exact hpc u (Or.inl hph)
      · rw [Function.update_noteq hut] at hu; exact hpc u hu
    · intro u hu
      rcases eq_or_ne u t with rfl | hut
      · rw [Function.update_same] at hu; exact Phase.noConfusion hu
      · rw [Function.update_noteq hut] at hu; exact hpo u hu
    · intro u hu
      rcases eq_or_ne u t with rfl | hut
      · rw [Function.update_same] at hu; exact Phase.noConfusion hu
      · rw [Function.update_noteq hut] at hu; exact hdc u hu
    · intro u k hu hk
      rcases eq_or_ne u t with rfl | hut
      · rw [Function.update_same] at hu; exact Phase.noConfusion hu
      · rw [Function.update_noteq hut] at hu; exact hrs u k hu hk
  | acqFlock t hph hfl =>
    refine ⟨hse, ?_, ?_, ?_, ?_, ?_, ?_⟩ <;> dsimp only
    · intro u k hu
      rcases eq_or_ne u t with rfl | hut
      · rfl
      · rw [Function.update_noteq hut] at hu
        have h1 := hrf u k hu
        rw [hfl] at h1
        exact Option.noConfusion h1
    · intro u k hu
      rcases eq_or_ne u t with rfl | hut
      · rw [Function.update_same] at hu
        injection hu with h0
        subst h0
        exact ⟨hpc u (Or.inr hph), Nat.zero_le _⟩
      · rw [Function.update_noteq hut] at hu; exact hrc u k hu
    · intro u hu
      rcases eq_or_ne u t with rfl | hut
      · rw [Function.update_same] at hu
        rcases hu with hu | hu <;> exact Phase.noConfusion hu
      · rw [Function.update_noteq hut] at hu; exact hpc u hu
    · intro u hu
      rcases eq_or_ne u t with rfl | hut
      · rw [Function.update_same] at hu; exact Phase.noConfusion hu
      · rw [Function.update_noteq hut] at hu; exact hpo u hu
    · intro u hu
      rcases eq_or_ne u t with rfl | hut
      · rw [Function.update_same] at hu; exact Phase.noConfusion hu
      · rw [Function.update_noteq hut] at hu; exact hdc u hu
    · intro u k hu hk
      rcases eq_or_ne u t with rfl | hut
      · rw [Function.update_same] at hu
        injection hu with h0
        omega
      · rw [Function.update_noteq hut] at hu; exact hrs u k hu hk
  | flockFail t hph =>
    refine ⟨hse, ?_, ?_, ?_, ?_, ?_, ?_⟩ <;> dsimp only
    · intro u k hu
      rcases eq_or_ne u t with rfl | hut
      · rw [Function.update_same] at hu; exact Phase.noConfusion hu
      · rw [Function.update_noteq hut] at hu; exact hrf u k hu
    · intro u k hu
      rcases eq_or_ne u t with rfl | hut
      · rw [Function.update_same] at hu; exact Phase.noConfusion hu
      · rw [Function.update_noteq hut] at hu; exact hrc u k hu
    · intro u hu
      rcases eq_or_ne u t with rfl | hut
      · exact hpc u (Or.inr hph)
      · rw [Function.update_noteq hut] at hu; exact hpc u hu
    · intro u hu
      rcases eq_or_ne u t with rfl | hut
      · rw [Function.update_same] at hu; exact Phase.noConfusion hu
      · rw [Function.update_noteq hut] at hu; exact hpo u hu
    · intro u hu
      rcases eq_or_ne u t with rfl | hut
      · exact Or.inl (hpc u (Or.inr hph))
      · rw [Function.update_noteq hut] at hu; exact hdc u hu
    · intro u k hu hk
      rcases eq_or_ne u t with rfl | hut
      · rw [Function.update_same] at hu; exact Phase.noConfusion hu
      · rw [Function.update_noteq hut] at hu; exact hrs u k hu hk
  | emit t k hph hk =>
    have hcnt := hrc t k hph
    refine ⟨?_, ?_, ?_, ?_, ?_, ?_, ?_⟩ <;> dsimp only
    · obtain ⟨a, ja, jb, hsl⟩ := hse
      have hcounts := serial_counts hsl
      rcases eq_or_ne t (!a) with hta | hta
      · have hjb : jb = k := by
          rw [← hcounts.2, ← hta]
          exact hcnt.1
        refine ⟨a, ja, k + 1, ?_⟩
        rw [hsl, hjb, hta, List.append_assoc, tblock_snoc]
      · have hta2 : t = a := by cases a <;> cases t <;> simp_all
        subst hta2
        have hja : ja = k := by
          rw [← hcounts.1]
          exact hcnt.1
        by_cases hjb0 : jb = 0
        · subst hjb0
          refine ⟨t, k + 1, 0, ?_⟩
          rw [hsl, hja, tblock_zero, List.append_nil, tblock_snoc,
            List.append_nil]
        · by_cases hk0 : k = 0
          · subst hk0
            refine ⟨!t, jb, 1, ?_⟩
            rw [Bool.not_not, hsl, hja, tblock_zero, List.nil_append]
            rfl
          · obtain ⟨pre, hpre, _⟩ := hrs t k hph (Nat.pos_of_ne_zero hk0)
            have hjbpos : 0 < jb := Nat.pos_of_ne_zero hjb0
            have hl1 : s.log.getLast? = some (t, k - 1) := by
              rw [hpre, List.getLast?_append_of_ne_nil _ (tblock_ne_nil t (Nat.pos_of_ne_zero hk0)),
                tblock_getLast t k (Nat.pos_of_ne_zero hk0)]
            have hl2 : s.log.getLast? = some (!t, jb - 1) := by
              rw [hsl, List.getLast?_append_of_ne_nil _ (tblock_ne_nil (!t) hjbpos),
                tblock_getLast (!t) jb hjbpos]
            rw [hl1] at hl2
            injection hl2 with hl3
            injection hl3 with hl4 _
            exact absurd hl4 (bool_ne_not t)
    · intro u m hu
      rcases eq_or_ne u t with rfl | hut
      · exact hrf u k hph
      · rw [Function.update_noteq hut] at hu
        exact hrf u m hu
    · intro u m hu
      rcases eq_or_ne u t with rfl | hut
      · rw [Function.update_same] at hu
        injection hu with hm
        subst hm
        rw [evCount_append, evCount_single_same, hcnt.1]
        omega
      · rw [Function.update_noteq hut] at hu
        have h1 := hrf u m hu
        have h2 := hrf t k hph
        rw [h1] at h2
        injection h2 with h3
        exact absurd h3 hut
    · intro u hu
      rcases eq_or_ne u t with rfl | hut
      · rw [Function.update_same] at hu
        rcases hu with hu | hu <;> exact Phase.noConfusion hu
      · rw [Function.update_noteq hut] at hu
        rw [evCount_append, evCount_single_ne hut, hpc u hu]
    · intro u hu
      rcases eq_or_ne u t with rfl | hut
      · rw [Function.update_same] at hu; exact Phase.noConfusion hu
      · rw [Function.update_noteq hut] at hu
        rw [evCount_append, evCount_single_ne hut, hpo u hu]
        omega
    · intro u hu
      rcases eq_or_ne u t with rfl | hut
      · rw [Function.update_same] at hu; exact Phase.noConfusion hu
      · rw [Function.update_noteq hut] at hu
        rw [evCount_append, evCount_single_ne hut]
        rcases hdc u hu with h0 | h0
        · exact Or.inl (by omega)
        · exact Or.inr (by omega)
    · intro u m hu hm
      rcases eq_or_ne u t with rfl | hut
      · rw [Function.update_same] at hu
        injection hu with hm2
        subst hm2
        by_cases hk0 : k = 0
        · subst hk0
          exact ⟨s.log, rfl, hcnt.1⟩
        · obtain ⟨pre, hpre, hpre0⟩ := hrs u k hph (Nat.pos_of_ne_zero hk0)
          refine ⟨pre, ?_, hpre0⟩
          rw [hpre, List.append_assoc, tblock_snoc]
      · rw [Function.update_noteq hut] at hu
        have h1 := hrf u m hu
        have h2 := hrf t k hph
        rw [h1] at h2
        injection h2 with h3
        exact absurd h3 hut
  | relFlock t hph =>
    refine ⟨hse, ?_, ?_, ?_, ?_, ?_, ?_⟩ <;> dsimp only
    · intro u m hu
      rcases eq_or_ne u t with rfl | hut
      · rw [Function.update_same] at hu; exact Phase.noConfusion hu
      · rw [Function.update_noteq hut] at hu
        have h1 := hrf u m hu
        have h2 := hrf t (nn t) hph
        rw [h1] at h2
        injection h2 with h3
        exact absurd h3 hut
    · intro u m hu
      rcases eq_or_ne u t with rfl | hut
      · rw [Function.update_same] at hu; exact Phase.noConfusion hu
      · rw [Function.update_noteq hut] at hu; exact hrc u m hu
    · intro u hu
      rcases eq_or_ne u t with rfl | hut
      · rw [Function.update_same] at hu
        rcases hu with hu | hu <;> exact Phase.noConfusion hu
      · rw [Function.update_noteq hut] at hu; exact hpc u hu
    · intro u hu
      rcases eq_or_ne u t with rfl | hut
      · exact (hrc u (nn u) hph).1
      · rw [Function.update_noteq hut] at hu; exact hpo u hu
    · intro u hu
      rcases eq_or_ne u t with rfl | hut
      · rw [Function.update_same] at hu; exact Phase.noConfusion hu
      · rw [Function.update_noteq hut] at hu; exact hdc u hu
    · intro u m hu hm
      rcases eq_or_ne u t with rfl | hut
      · rw [Function.update_same] at hu; exact Phase.noConfusion hu
      · rw [Function.update_noteq hut] at hu; exact hrs u m hu hm
  | relMutex t hph =>
    refine ⟨hse, ?_, ?_, ?_, ?_, ?_, ?_⟩ <;> dsimp only
    · intro u m hu
      rcases eq_or_ne u t with rfl | hut
      · rw [Function.update_same] at hu; exact Phase.noConfusion hu
      · rw [Function.update_noteq hut] at hu; exact hrf u m hu
    · intro u m hu
      rcases eq_or_ne u t with rfl | hut
      · rw [Function.update_same] at hu; exact Phase.noConfusion hu
      · rw [Function.update_noteq hut] at hu; exact hrc u m hu
    · intro u hu
      rcases eq_or_ne u t with rfl | hut
      · rw [Function.update_same] at hu
        rcases hu with hu | hu <;> exact Phase.noConfusion hu
      · rw [Function.update_noteq hut] at hu; exact hpc u hu
    · intro u hu
      rcases eq_or_ne u t with rfl | hut
      · rw [Function.update_same] at hu; exact Phase.noConfusion hu
      · rw [Function.update_noteq hut] at hu; exact hpo u hu
    · intro u hu
      rcases eq_or_ne u t with rfl | hut
      · exact Or.inr (hpo u hph)
      · rw [Function.update_noteq hut] at hu; exact hdc u hu
    · intro u m hu hm
      rcases eq_or_ne u t with rfl | hut
      · rw [Function.update_same] at hu; exact Phase.noConfusion hu
      · rw [Function.update_noteq hut] at hu; exact hrs u m hu hm

theorem CInv_reachable {nn : Bool → Nat} {mo : Bool → Bool} {s : CState}
    (h : ReachableC nn mo s) : CInv nn s := by
  induction h with
  | refl => exact CInv_init nn
  | tail _ hstep ih => exact CInv_preserved ih hstep

/-- C1: for two batch calls submitted concurrently — through clones of
one Handle (`mo` constant) or through two independently constructed
Handles for the same directory path (`mo = id`) — in every reachable
state the side-effect log is two contiguous per-thread blocks (the
action bodies never interleave), and while one thread is inside its
action body the other thread's side effects are either absent or
complete, so the second action to run observes every side effect of the
first completed before it starts. -/
theorem C1_mutual_exclusion (nn : Bool → Nat) (mo : Bool → Bool) (s : CState)
    (h : ReachableC nn mo s) :
    (∃ a ja jb, s.log = tblock a ja ++ tblock (!a) jb) ∧
    (∀ t k, s.phase t = Phase.running k → ∀ u, u ≠ t →
      evCount u s.log = 0 ∨ evCount u s.log = nn u) := by
  have hi := CInv_reachable h
  refine ⟨hi.serial, ?_⟩
  intro t k hrun u hut
  cases hph : s.phase u with
  | start => exact Or.inl (hi.pre_count u (Or.inl hph))
  | haveMutex => exact Or.inl (hi.pre_count u (Or.inr hph))
  | running m =>
    have h1 := hi.run_flock t k hrun
    have h2 := hi.run_flock u m hph
    rw [h1] at h2
    injection h2 with h3
    exact absurd h3 hut.symm
  | postFlock => exact Or.inr (hi.post_count u hph)
  | done => exact hi.done_count u hph

theorem C1_witness :
    (∃ a ja jb, initC.log = tblock a ja ++ tblock (!a) jb) ∧
    (∀ t k, initC.phase t = Phase.running k → ∀ u, u ≠ t →
      evCount u initC.log = 0 ∨ evCount u initC.log = (fun _ => 1) u) :=
  C1_mutual_exclusion (fun _ => 1) (fun _ => false) initC
    Relation.ReflTransGen.refl

end DirLock
